import Mathlib

/-!
Shallow embedding of the polyphonic synthesizer core from
`midi_poly_synth.py` and `mpk_only_synth.py`.

Modelling choices:
* Python floats are modelled exactly: envelope and control arithmetic
  (which only use rational constants and comparisons) over `ℚ`,
  oscillator/filter sample values over `ℝ`.
* A Python `dict` keyed by MIDI note is an association list
  `List (ℕ × V)` in insertion order; `del` removes the keyed entry,
  `min(keys)` is the least key.
* The `try/except` of `audio_callback` is modelled by running the
  mixing loop in `Except` and recovering with a zero block.
-/

/-- `np.sign`: -1 for negatives, 1 for positives, 0 at 0. -/
noncomputable def npSign (x : ℝ) : ℝ :=
  if x < 0 then -1 else if 0 < x then 1 else 0

/-- Python float `x % y` (for the phase wrap `% (2*np.pi)` and `% 1.0`):
`x - y * floor (x / y)`. -/
noncomputable def realMod (x y : ℝ) : ℝ :=
  x - y * (Int.floor (x / y) : ℝ)

/-- The five envelope phases, the Python strings
`'attack', 'decay', 'sustain', 'release', 'finished'`. -/
inductive EnvPhase where
  | attack
  | decay
  | sustain
  | release
  | finished
  deriving DecidableEq

/-- The `envelope_params` / `synth_params` dict
`{'attack': _, 'decay': _, 'sustain': _, 'release': _}`. -/
structure EnvelopeParams where
  attack : ℚ
  decay : ℚ
  sustain : ℚ
  release : ℚ
  deriving DecidableEq

/-- State of `PolyphonicVoice` (midi_poly_synth.py, lines 18-40). -/
structure PolyphonicVoice where
  note : ℕ
  velocity : ℚ
  frequency : ℝ
  phase : ℝ
  sample_rate : ℚ
  attack_time : ℚ
  decay_time : ℚ
  sustain_level : ℚ
  release_time : ℚ
  envelope_phase : EnvPhase
  envelope_value : ℚ
  envelope_timer : ℚ
  releasing : Bool
  filter_state : ℝ

/-- `PolyphonicVoice.__init__(note, velocity, sample_rate, envelope_params)`. -/
noncomputable def PolyphonicVoice.init (note velocity : ℕ) (sample_rate : ℚ)
    (envelope_params : EnvelopeParams) : PolyphonicVoice where
  note := note
  velocity := (velocity : ℚ) / 127
  frequency := 440 * (2 : ℝ) ^ (((note : ℝ) - 69) / 12)
  phase := 0
  sample_rate := sample_rate
  attack_time := envelope_params.attack
  decay_time := envelope_params.decay
  sustain_level := envelope_params.sustain
  release_time := envelope_params.release
  envelope_phase := .attack
  envelope_value := 0
  envelope_timer := 0
  releasing := false
  filter_state := 0

/-- `PolyphonicVoice.release` (lines 42-46). -/
def PolyphonicVoice.release (s : PolyphonicVoice) : PolyphonicVoice :=
  { s with releasing := true, envelope_phase := .release, envelope_timer := 0 }

/-- `PolyphonicVoice.is_finished` (lines 48-50). -/
def PolyphonicVoice.is_finished (s : PolyphonicVoice) : Bool :=
  s.envelope_phase = .finished

/-- `PolyphonicVoice.update_envelope(frames)` (lines 52-90): mutates the
envelope state and returns the (new) `envelope_value`. -/
def PolyphonicVoice.update_envelope (s₀ : PolyphonicVoice) (frames : ℕ) :
    ℚ × PolyphonicVoice :=
  let dt : ℚ := (frames : ℚ) / s₀.sample_rate
  let s := { s₀ with envelope_timer := s₀.envelope_timer + dt }
  let s :=
    match s.envelope_phase with
    | .attack =>
      if s.attack_time > 0 then
        let progress := min 1 (s.envelope_timer / s.attack_time)
        let s := { s with envelope_value := progress }
        if progress ≥ 1 then
          { s with envelope_phase := .decay, envelope_timer := 0 }
        else s
      else
        { s with envelope_value := 1, envelope_phase := .decay }
    | .decay =>
      if s.decay_time > 0 then
        let progress := min 1 (s.envelope_timer / s.decay_time)
        let s := { s with envelope_value := 1 - progress * (1 - s.sustain_level) }
        if progress ≥ 1 then { s with envelope_phase := .sustain } else s
      else
        { s with envelope_value := s.sustain_level, envelope_phase := .sustain }
    | .sustain =>
      { s with envelope_value := s.sustain_level }
    | .release =>
      if s.release_time > 0 then
        let progress := min 1 (s.envelope_timer / s.release_time)
        let s := { s with envelope_value := s.sustain_level * (1 - progress) }
        if progress ≥ 1 then { s with envelope_phase := .finished } else s
      else
        { s with envelope_phase := .finished }
    | .finished => s
  (s.envelope_value, s)

/-- One oscillator sample at phase angle `θ` (generate, lines 104-113):
waveform 1 square, 2 sawtooth, 3 triangle, anything else sine. -/
noncomputable def oscSample (waveform : ℕ) (θ : ℝ) : ℝ :=
  if waveform = 1 then npSign (Real.sin θ)
  else if waveform = 2 then 2 * Int.fract (θ / (2 * Real.pi)) - 1
  else if waveform = 3 then 2 * |2 * Int.fract (θ / (2 * Real.pi)) - 1| - 1
  else Real.sin θ

/-- The raw oscillator block of `generate` (lines 100-113):
sample `i` is taken at `phase + i * phase_increment`, before any
filtering, envelope or velocity scaling. -/
noncomputable def rawOsc (phase inc : ℝ) (waveform frames : ℕ) : List ℝ :=
  (List.range frames).map fun i => oscSample waveform (phase + (i : ℝ) * inc)

/-- The in-place one-pole filter loop of `generate` (lines 119-123):
returns the filtered block and the final `filter_state`. -/
noncomputable def applyFilter (alpha : ℝ) : List ℝ → ℝ → List ℝ × ℝ
  | [], st => ([], st)
  | x :: xs, st =>
    let st1 := alpha * x + (1 - alpha) * st
    let r := applyFilter alpha xs st1
    (st1 :: r.1, r.2)

/-- `detuned_freq = self.frequency * (2 ** (detune / 1200.0))` (line 98). -/
noncomputable def PolyphonicVoice.detuned_freq (s : PolyphonicVoice) (detune : ℚ) : ℝ :=
  s.frequency * (2 : ℝ) ^ ((detune : ℝ) / 1200)

/-- `PolyphonicVoice.generate(frames, waveform, filter_cutoff, detune)`
(lines 92-129). -/
noncomputable def PolyphonicVoice.generate (s : PolyphonicVoice)
    (frames waveform : ℕ) (filter_cutoff detune : ℚ) :
    List ℝ × PolyphonicVoice :=
  if s.envelope_phase = .finished then
    (List.replicate frames 0, s)
  else
    let df := s.detuned_freq detune
    let phase_increment : ℝ := 2 * Real.pi * df / (s.sample_rate : ℝ)
    let audio := rawOsc s.phase phase_increment waveform frames
    let s := { s with
      phase := realMod (s.phase + (frames : ℝ) * phase_increment) (2 * Real.pi) }
    let fr :=
      if filter_cutoff < 6000 ∧ (waveform = 1 ∨ waveform = 2) then
        applyFilter (min (1 / 2) ((filter_cutoff : ℝ) / 6000)) audio s.filter_state
      else (audio, s.filter_state)
    let s := { s with filter_state := fr.2 }
    let uv := s.update_envelope frames
    (fr.1.map fun a => a * ((uv.1 : ℝ) * (s.velocity : ℝ)), uv.2)

/-- State of `MPKVoice` (mpk_only_synth.py, lines 14-36). -/
structure MPKVoice where
  note : ℕ
  velocity : ℚ
  frequency : ℝ
  phase : ℝ
  sample_rate : ℚ
  attack_time : ℚ
  decay_time : ℚ
  sustain_level : ℚ
  release_time : ℚ
  envelope_phase : EnvPhase
  envelope_value : ℚ
  envelope_timer : ℚ
  releasing : Bool
  filter_state : ℝ

/-- `MPKVoice.__init__(note, velocity, sample_rate, synth_params)`. -/
noncomputable def MPKVoice.init (note velocity : ℕ) (sample_rate : ℚ)
    (synth_params : EnvelopeParams) : MPKVoice where
  note := note
  velocity := (velocity : ℚ) / 127
  frequency := 440 * (2 : ℝ) ^ (((note : ℝ) - 69) / 12)
  phase := 0
  sample_rate := sample_rate
  attack_time := synth_params.attack
  decay_time := synth_params.decay
  sustain_level := synth_params.sustain
  release_time := synth_params.release
  envelope_phase := .attack
  envelope_value := 0
  envelope_timer := 0
  releasing := false
  filter_state := 0

/-- `MPKVoice.release` (lines 38-42). -/
def MPKVoice.release (s : MPKVoice) : MPKVoice :=
  { s with releasing := true, envelope_phase := .release, envelope_timer := 0 }

/-- `MPKVoice.is_finished` (lines 44-46). -/
def MPKVoice.is_finished (s : MPKVoice) : Bool :=
  s.envelope_phase = .finished

/-- `MPKVoice.update_envelope(frames)` (lines 48-86). -/
def MPKVoice.update_envelope (s₀ : MPKVoice) (frames : ℕ) : ℚ × MPKVoice :=
  let dt : ℚ := (frames : ℚ) / s₀.sample_rate
  let s := { s₀ with envelope_timer := s₀.envelope_timer + dt }
  let s :=
    match s.envelope_phase with
    | .attack =>
      if s.attack_time > 0 then
        let progress := min 1 (s.envelope_timer / s.attack_time)
        let s := { s with envelope_value := progress }
        if progress ≥ 1 then
          { s with envelope_phase := .decay, envelope_timer := 0 }
        else s
      else
        { s with envelope_value := 1, envelope_phase := .decay }
    | .decay =>
      if s.decay_time > 0 then
        let progress := min 1 (s.envelope_timer / s.decay_time)
        let s := { s with envelope_value := 1 - progress * (1 - s.sustain_level) }
        if progress ≥ 1 then { s with envelope_phase := .sustain } else s
      else
        { s with envelope_value := s.sustain_level, envelope_phase := .sustain }
    | .sustain =>
      { s with envelope_value := s.sustain_level }
    | .release =>
      if s.release_time > 0 then
        let progress := min 1 (s.envelope_timer / s.release_time)
        let s := { s with envelope_value := s.sustain_level * (1 - progress) }
        if progress ≥ 1 then { s with envelope_phase := .finished } else s
      else
        { s with envelope_phase := .finished }
    | .finished => s
  (s.envelope_value, s)

/-- `detuned_freq` of `MPKVoice.generate` (line 94). -/
noncomputable def MPKVoice.detuned_freq (s : MPKVoice) (detune : ℚ) : ℝ :=
  s.frequency * (2 : ℝ) ^ ((detune : ℝ) / 1200)

/-- `MPKVoice.generate(frames, waveform, filter_cutoff, detune)`
(lines 88-125). -/
noncomputable def MPKVoice.generate (s : MPKVoice)
    (frames waveform : ℕ) (filter_cutoff detune : ℚ) :
    List ℝ × MPKVoice :=
  if s.envelope_phase = .finished then
    (List.replicate frames 0, s)
  else
    let df := s.detuned_freq detune
    let phase_increment : ℝ := 2 * Real.pi * df / (s.sample_rate : ℝ)
    let audio := rawOsc s.phase phase_increment waveform frames
    let s := { s with
      phase := realMod (s.phase + (frames : ℝ) * phase_increment) (2 * Real.pi) }
    let fr :=
      if filter_cutoff < 6000 ∧ (waveform = 1 ∨ waveform = 2) then
        applyFilter (min (1 / 2) ((filter_cutoff : ℝ) / 6000)) audio s.filter_state
      else (audio, s.filter_state)
    let s := { s with filter_state := fr.2 }
    let uv := s.update_envelope frames
    (fr.1.map fun a => a * ((uv.1 : ℝ) * (s.velocity : ℝ)), uv.2)

/-- The `self.voices` dict, note → voice, in insertion order. -/
abbrev Pool (V : Type) := List (ℕ × V)

/-- The key list of the pool (`self.voices.keys()`). -/
def keys {V : Type} (p : Pool V) : List ℕ := p.map Prod.fst

/-- `del self.voices[n]`. -/
def delKey {V : Type} (n : ℕ) (p : Pool V) : Pool V :=
  p.filter fun e => decide (e.1 ≠ n)

/-- `min(keys)` over a nonempty key list (Python `min`); 0 on the empty
list, which the code never reaches. -/
def minKey : List ℕ → ℕ
  | [] => 0
  | [n] => n
  | n :: m :: ns => min n (minKey (m :: ns))

/-- `self.voices[n]` as an optional lookup. -/
def lookupNote {V : Type} (n : ℕ) (p : Pool V) : Option V :=
  (p.find? fun e => decide (e.1 = n)).map Prod.snd

/-- `note_on(note, velocity)` of both `FourPotMIDISynth` (lines 252-268,
`max_voices = 12`) and `MPKOnlySynth` (lines 262-277, `max_voices = 16`):
delete an existing voice for the note, evict the minimal active note if
the pool is full, then insert the fresh voice. -/
def note_on {V : Type} (mk : ℕ → ℕ → V) (max_voices : ℕ)
    (note velocity : ℕ) (p : Pool V) : Pool V :=
  let p := if note ∈ keys p then delKey note p else p
  let p := if p.length ≥ max_voices then delKey (minKey (keys p)) p else p
  p ++ [(note, mk note velocity)]

/-- `note_off(note)` of both synths: `release()` the voice if present. -/
def note_off {V : Type} (rel : V → V) (note : ℕ) (p : Pool V) : Pool V :=
  p.map fun e => if e.1 = note then (e.1, rel e.2) else e

/-- The post-mix pruning of `audio_callback`: drop every finished voice. -/
def prune {V : Type} (fin : V → Bool) (p : Pool V) : Pool V :=
  p.filter fun e => !(fin e.2)

/-- One pool-affecting event: a MIDI note-on (with the envelope
parameters in effect at that instant), a note-off, or the render-time
pruning pass. -/
inductive Ev where
  | noteOn (note velocity : ℕ) (params : EnvelopeParams)
  | noteOff (note : ℕ)
  | prune

/-- Pool transition of `FourPotMIDISynth` (`max_voices = 12`). -/
noncomputable def FourPotMIDISynth.step (sr : ℚ) :
    Ev → Pool PolyphonicVoice → Pool PolyphonicVoice
  | .noteOn n v ps, p => note_on (fun n v => PolyphonicVoice.init n v sr ps) 12 n v p
  | .noteOff n, p => note_off PolyphonicVoice.release n p
  | .prune, p => prune PolyphonicVoice.is_finished p

/-- The `FourPotMIDISynth` pool after a sequence of events, from the
empty initial `self.voices = {}`. -/
noncomputable def FourPotMIDISynth.run (sr : ℚ) (evs : List Ev) : Pool PolyphonicVoice :=
  evs.foldl (fun p e => FourPotMIDISynth.step sr e p) []

/-- Pool transition of `MPKOnlySynth` (`max_voices = 16`). -/
noncomputable def MPKOnlySynth.step (sr : ℚ) :
    Ev → Pool MPKVoice → Pool MPKVoice
  | .noteOn n v ps, p => note_on (fun n v => MPKVoice.init n v sr ps) 16 n v p
  | .noteOff n, p => note_off MPKVoice.release n p
  | .prune, p => prune MPKVoice.is_finished p

/-- The `MPKOnlySynth` pool after a sequence of events. -/
noncomputable def MPKOnlySynth.run (sr : ℚ) (evs : List Ev) : Pool MPKVoice :=
  evs.foldl (fun p e => MPKOnlySynth.step sr e p) []

/-- The voice-mixing loop of `audio_callback` (midi_poly_synth.py lines
323-333, mpk_only_synth.py lines 288-298), run in `Except` so that a
fault raised while rendering a voice aborts the block. `gen` renders one
voice's block and may fault; finished voices are skipped. -/
def mixVoices {V E : Type} (gen : ℕ → V → Except E (List ℝ)) (fin : V → Bool) :
    Pool V → List ℝ → Except E (List ℝ)
  | [], acc => .ok acc
  | e :: rest, acc =>
    if fin e.2 then mixVoices gen fin rest acc
    else
      match gen e.1 e.2 with
      | .error err => .error err
      | .ok va => mixVoices gen fin rest (List.zipWith (· + ·) acc va)

/-- The output-buffer path of `audio_callback(outdata, frames, ...)`
(midi_poly_synth.py lines 319-350, mpk_only_synth.py lines 284-315): mix
all voices into a zero accumulator, scale by the master volume, soft
limit, and write the mono result to both channels; the surrounding
`try/except` recovers from any fault by filling the buffer with zeros. -/
noncomputable def audio_callback {V E : Type} (gen : ℕ → V → Except E (List ℝ))
    (fin : V → Bool) (master_volume : ℝ) (frames : ℕ) (p : Pool V) :
    List ℝ × List ℝ :=
  match mixVoices gen fin p (List.replicate frames 0) with
  | .ok audio =>
    let audio := audio.map fun a => a * master_volume
    let audio := audio.map fun a => Real.tanh (a * 0.7) * 1.2
    (audio, audio)
  | .error _ => (List.replicate frames 0, List.replicate frames 0)

/-- Field-wise correspondence between the two voice classes. -/
def toMPK (s : PolyphonicVoice) : MPKVoice where
  note := s.note
  velocity := s.velocity
  frequency := s.frequency
  phase := s.phase
  sample_rate := s.sample_rate
  attack_time := s.attack_time
  decay_time := s.decay_time
  sustain_level := s.sustain_level
  release_time := s.release_time
  envelope_phase := s.envelope_phase
  envelope_value := s.envelope_value
  envelope_timer := s.envelope_timer
  releasing := s.releasing
  filter_state := s.filter_state

/-- One call on a voice object: `release()` or
`generate(frames, waveform, filter_cutoff, detune)`. -/
inductive VOp where
  | rel
  | gen (frames waveform : ℕ) (filter_cutoff detune : ℚ)

/-- Run a sequence of calls on a `PolyphonicVoice`, collecting the
sample blocks returned by the `generate` calls. -/
noncomputable def runPolyVoice (ops : List VOp) (s : PolyphonicVoice) :
    PolyphonicVoice × List (List ℝ) :=
  ops.foldl
    (fun acc op =>
      match op with
      | .rel => (acc.1.release, acc.2)
      | .gen f w c d =>
        let r := acc.1.generate f w c d
        (r.2, acc.2 ++ [r.1]))
    (s, [])

/-- Run a sequence of calls on an `MPKVoice`, collecting the sample
blocks returned by the `generate` calls. -/
noncomputable def runMPKVoice (ops : List VOp) (s : MPKVoice) :
    MPKVoice × List (List ℝ) :=
  ops.foldl
    (fun acc op =>
      match op with
      | .rel => (acc.1.release, acc.2)
      | .gen f w c d =>
        let r := acc.1.generate f w c d
        (r.2, acc.2 ++ [r.1]))
    (s, [])

/-- `update_envelope` iterated over a list of block sizes. -/
def runUpdates (fs : List ℕ) (s : PolyphonicVoice) : PolyphonicVoice :=
  fs.foldl (fun s f => (s.update_envelope f).2) s

/-- Total elapsed time of a list of blocks at a sample rate. -/
def elapsed (fs : List ℕ) (sr : ℚ) : ℚ :=
  (fs.map fun f => (f : ℚ) / sr).sum

/-- The two well-formedness conditions of a voice pool: unique note
keys, size bounded by the polyphony limit. -/
def goodPool {V : Type} (max_voices : ℕ) (p : Pool V) : Prop :=
  (keys p).Nodup ∧ p.length ≤ max_voices

/-! ### Pool lemmas -/

theorem keys_cons {V : Type} (e : ℕ × V) (p : Pool V) :
    keys (e :: p) = e.1 :: keys p := rfl

theorem mem_keys {V : Type} {n : ℕ} {p : Pool V} :
    n ∈ keys p ↔ ∃ v, (n, v) ∈ p := by
  constructor
  · intro h
    obtain ⟨e, he, rfl⟩ := List.mem_map.mp h
    exact ⟨e.2, he⟩
  · rintro ⟨v, hv⟩
    exact List.mem_map.mpr ⟨(n, v), hv, rfl⟩

theorem delKey_sublist {V : Type} (n : ℕ) (p : Pool V) : (delKey n p).Sublist p :=
  List.filter_sublist p

theorem keys_delKey_sublist {V : Type} (n : ℕ) (p : Pool V) :
    (keys (delKey n p)).Sublist (keys p) :=
  (delKey_sublist n p).map Prod.fst

theorem not_mem_keys_delKey {V : Type} (n : ℕ) (p : Pool V) :
    n ∉ keys (delKey n p) := by
  simp only [keys, delKey, List.mem_map, List.mem_filter, decide_eq_true_eq]
  rintro ⟨e, ⟨-, hne⟩, rfl⟩
  exact hne rfl

theorem delKey_of_not_mem {V : Type} {n : ℕ} {p : Pool V} (h : n ∉ keys p) :
    delKey n p = p := by
  apply List.filter_eq_self.mpr
  intro e he
  simp only [decide_eq_true_eq]
  intro hk
  exact h (mem_keys.mpr ⟨e.2, by rw [← hk]; exact he⟩)

theorem length_delKey_lt {V : Type} {n : ℕ} {p : Pool V} (h : n ∈ keys p) :
    (delKey n p).length < p.length := by
  induction p with
  | nil => simp [keys] at h
  | cons e rest ih =>
    by_cases he : e.1 = n
    · have h1 : (delKey n rest).length ≤ rest.length :=
        (delKey_sublist n rest).length_le
      have h2 : delKey n (e :: rest) = delKey n rest := by
        simp [delKey, List.filter_cons, he]
      rw [h2]
      calc (delKey n rest).length ≤ rest.length := h1
        _ < (e :: rest).length := Nat.lt_succ_self _
    · have hmem : n ∈ keys rest := by
        rw [keys_cons, List.mem_cons] at h
        rcases h with h1 | h1
        · exact absurd h1.symm he
        · exact h1
      have h2 : delKey n (e :: rest) = e :: delKey n rest := by
        simp [delKey, List.filter_cons, he]
      rw [h2]
      simpa using Nat.succ_lt_succ (ih hmem)

theorem length_delKey_of_mem {V : Type} {n : ℕ} {p : Pool V}
    (hnd : (keys p).Nodup) (h : n ∈ keys p) :
    (delKey n p).length + 1 = p.length := by
  induction p with
  | nil => simp [keys] at h
  | cons e rest ih =>
    rw [keys_cons, List.nodup_cons] at hnd
    by_cases he : e.1 = n
    · have hnot : n ∉ keys rest := he ▸ hnd.1
      have h2 : delKey n (e :: rest) = delKey n rest := by
        simp [delKey, List.filter_cons, he]
      rw [h2, delKey_of_not_mem hnot]
      simp
    · have hmem : n ∈ keys rest := by
        rw [keys_cons, List.mem_cons] at h
        rcases h with h1 | h1
        · exact absurd h1.symm he
        · exact h1
      have h2 : delKey n (e :: rest) = e :: delKey n rest := by
        simp [delKey, List.filter_cons, he]
      rw [h2]
      simpa using ih hnd.2 hmem

theorem minKey_mem : ∀ {l : List ℕ}, l ≠ [] → minKey l ∈ l
  | [], h => absurd rfl h
  | [n], _ => by simp [minKey]
  | n :: m :: ns, _ => by
    rcases min_cases n (minKey (m :: ns)) with ⟨h, -⟩ | ⟨h, -⟩
    · simp [minKey, h]
    · have hmem := minKey_mem (l := m :: ns) (by simp)
      simp only [minKey, h]
      exact List.mem_cons_of_mem _ hmem

theorem minKey_le : ∀ {l : List ℕ} {m : ℕ}, m ∈ l → minKey l ≤ m
  | [], _, h => by simp at h
  | [n], m, h => by
    simp only [List.mem_singleton] at h
    simp [minKey, h]
  | n :: k :: ns, m, h => by
    rcases List.mem_cons.mp h with rfl | h'
    · simp only [minKey]
      exact min_le_left _ _
    · have := minKey_le (l := k :: ns) h'
      simp only [minKey]
      exact le_trans (min_le_right _ _) this

theorem keys_note_off {V : Type} (rel : V → V) (n : ℕ) (p : Pool V) :
    keys (note_off rel n p) = keys p := by
  unfold note_off keys
  rw [List.map_map]
  congr 1
  funext e
  by_cases he : e.1 = n <;> simp [he]

theorem keys_append_single {V : Type} (p : Pool V) (n : ℕ) (v : V) :
    keys (p ++ [(n, v)]) = keys p ++ [n] := by
  simp [keys]

theorem note_on_eq_of_mem {V : Type} (mk : ℕ → ℕ → V) (max_voices : ℕ)
    {n : ℕ} (v : ℕ) {p : Pool V} (hmem : n ∈ keys p)
    (hlen : p.length ≤ max_voices) :
    note_on mk max_voices n v p = delKey n p ++ [(n, mk n v)] := by
  have hlt : (delKey n p).length < p.length := length_delKey_lt hmem
  have hfull : ¬ ((delKey n p).length ≥ max_voices) := by omega
  simp [note_on, hmem, hfull]

theorem note_on_eq_of_full {V : Type} (mk : ℕ → ℕ → V) (max_voices : ℕ)
    {n : ℕ} (v : ℕ) {p : Pool V} (hmem : n ∉ keys p)
    (hlen : p.length = max_voices) :
    note_on mk max_voices n v p
      = delKey (minKey (keys p)) p ++ [(n, mk n v)] := by
  have hfull : p.length ≥ max_voices := by omega
  simp [note_on, hmem, hfull]

theorem note_on_eq_of_room {V : Type} (mk : ℕ → ℕ → V) (max_voices : ℕ)
    {n : ℕ} (v : ℕ) {p : Pool V} (hmem : n ∉ keys p)
    (hlen : p.length < max_voices) :
    note_on mk max_voices n v p = p ++ [(n, mk n v)] := by
  have hfull : ¬ (p.length ≥ max_voices) := by omega
  simp [note_on, hmem, hfull]

theorem goodPool_append_single {V : Type} {max_voices : ℕ} {q : Pool V}
    (hnd : (keys q).Nodup) (hn : n ∉ keys q) (hlen : q.length < max_voices)
    (v : V) : goodPool max_voices (q ++ [(n, v)]) := by
  constructor
  · rw [keys_append_single]
    simp [List.nodup_append, hnd, hn]
  · simp only [List.length_append, List.length_singleton]
    omega

theorem goodPool_note_on {V : Type} (mk : ℕ → ℕ → V) {max_voices : ℕ}
    (hmax : 1 ≤ max_voices) {p : Pool V} (hp : goodPool max_voices p) (n v : ℕ) :
    goodPool max_voices (note_on mk max_voices n v p) := by
  obtain ⟨hnd, hlen⟩ := hp
  by_cases hmem : n ∈ keys p
  · rw [note_on_eq_of_mem mk max_voices v hmem hlen]
    exact goodPool_append_single (hnd.sublist (keys_delKey_sublist n p))
      (not_mem_keys_delKey n p)
      (lt_of_lt_of_le (length_delKey_lt hmem) hlen) _
  · rcases lt_or_eq_of_le hlen with hlt | heq
    · rw [note_on_eq_of_room mk max_voices v hmem hlt]
      exact goodPool_append_single hnd hmem hlt _
    · rw [note_on_eq_of_full mk max_voices v hmem heq]
      have hne : keys p ≠ [] := by
        intro h0
        have : p.length = 0 := by simpa [keys] using congrArg List.length h0
        omega
      have hmm : minKey (keys p) ∈ keys p := minKey_mem hne
      refine goodPool_append_single (hnd.sublist (keys_delKey_sublist _ p))
        (fun h => hmem ((keys_delKey_sublist _ p).subset h)) ?_ _
      calc (delKey (minKey (keys p)) p).length < p.length := length_delKey_lt hmm
        _ ≤ max_voices := hlen

/-! ### Claim theorems: voice pool -/

/-- C1: for every sequence of note_on / note_off calls and render-time
pruning passes, starting from the empty pool, the `FourPotMIDISynth`
pool (`max_voices = 12`) and the `MPKOnlySynth` pool (`max_voices = 16`)
keep unique note keys (at most one voice per note) and never exceed
their `max_voices` bound. -/
theorem pool_invariant_all_runs (sr : ℚ) (evs : List Ev) :
    goodPool 12 (FourPotMIDISynth.run sr evs)
    ∧ goodPool 16 (MPKOnlySynth.run sr evs) := by
  have hstep4 : ∀ (e : Ev) (p : Pool PolyphonicVoice),
      goodPool 12 p → goodPool 12 (FourPotMIDISynth.step sr e p) := by
    rintro (⟨n, v, ps⟩ | n | _) p hp
    · show goodPool 12 (note_on (fun n v => PolyphonicVoice.init n v sr ps) 12 n v p)
      exact goodPool_note_on _ (by omega) hp n v
    · show goodPool 12 (note_off PolyphonicVoice.release n p)
      exact ⟨by rw [keys_note_off]; exact hp.1, by simpa [note_off] using hp.2⟩
    · show goodPool 12 (prune PolyphonicVoice.is_finished p)
      exact ⟨hp.1.sublist ((List.filter_sublist p).map Prod.fst),
        le_trans (List.filter_sublist p).length_le hp.2⟩
  have hstep16 : ∀ (e : Ev) (p : Pool MPKVoice),
      goodPool 16 p → goodPool 16 (MPKOnlySynth.step sr e p) := by
    rintro (⟨n, v, ps⟩ | n | _) p hp
    · show goodPool 16 (note_on (fun n v => MPKVoice.init n v sr ps) 16 n v p)
      exact goodPool_note_on _ (by omega) hp n v
    · show goodPool 16 (note_off MPKVoice.release n p)
      exact ⟨by rw [keys_note_off]; exact hp.1, by simpa [note_off] using hp.2⟩
    · show goodPool 16 (prune MPKVoice.is_finished p)
      exact ⟨hp.1.sublist ((List.filter_sublist p).map Prod.fst),
        le_trans (List.filter_sublist p).length_le hp.2⟩
  have haux : ∀ (l : List Ev) (p : Pool PolyphonicVoice), goodPool 12 p →
      goodPool 12 (l.foldl (fun p e => FourPotMIDISynth.step sr e p) p) := by
    intro l
    induction l with
    | nil => intro p hp; exact hp
    | cons e rest ih => intro p hp; exact ih _ (hstep4 e p hp)
  have haux16 : ∀ (l : List Ev) (p : Pool MPKVoice), goodPool 16 p →
      goodPool 16 (l.foldl (fun p e => MPKOnlySynth.step sr e p) p) := by
    intro l
    induction l with
    | nil => intro p hp; exact hp
    | cons e rest ih => intro p hp; exact ih _ (hstep16 e p hp)
  exact ⟨haux evs [] ⟨List.nodup_nil, by simp⟩, haux16 evs [] ⟨List.nodup_nil, by simp⟩⟩

theorem lookupNote_cons {V : Type} (m : ℕ) (e : ℕ × V) (p : Pool V) :
    lookupNote m (e :: p) = if e.1 = m then some e.2 else lookupNote m p := by
  by_cases he : e.1 = m <;> simp [lookupNote, List.find?_cons, he]

theorem lookupNote_delKey_ne {V : Type} {m n : ℕ} (h : m ≠ n) (p : Pool V) :
    lookupNote m (delKey n p) = lookupNote m p := by
  induction p with
  | nil => rfl
  | cons e rest ih =>
    by_cases he : e.1 = n
    · rw [show delKey n (e :: rest) = delKey n rest by
        simp [delKey, List.filter_cons, he], ih, lookupNote_cons,
        if_neg (by rw [he]; exact fun hh => h hh.symm)]
    · rw [show delKey n (e :: rest) = e :: delKey n rest by
        simp [delKey, List.filter_cons, he], lookupNote_cons, lookupNote_cons, ih]

theorem lookupNote_append_ne {V : Type} {m n : ℕ} (h : m ≠ n) (p : Pool V) (v : V) :
    lookupNote m (p ++ [(n, v)]) = lookupNote m p := by
  induction p with
  | nil =>
    rw [List.nil_append, lookupNote_cons, if_neg (fun hh => h hh.symm)]
  | cons e rest ih =>
    rw [List.cons_append, lookupNote_cons, lookupNote_cons, ih]

/-- C2: whenever `note_on` runs for a note not in the pool while the
pool is at `max_voices`, exactly the entry with the numerically smallest
key is deleted outright (no release tail) before the new voice is
appended; and concretely, with `max_voices = 2`, NoteOn 60, 64, 67 on
`PolyphonicVoice`s leaves exactly the notes 64 and 67. -/
theorem eviction_policy_smallest_note :
    (∀ (V : Type) (mk : ℕ → ℕ → V) (max_voices n v : ℕ) (p : Pool V),
        1 ≤ max_voices → n ∉ keys p → p.length = max_voices →
        note_on mk max_voices n v p
            = delKey (minKey (keys p)) p ++ [(n, mk n v)]
          ∧ minKey (keys p) ∈ keys p
          ∧ ∀ m ∈ keys p, minKey (keys p) ≤ m)
    ∧ keys (note_on (fun n v => PolyphonicVoice.init n v 44100 ⟨1/100, 1/10, 7/10, 3/10⟩) 2 67 100
        (note_on (fun n v => PolyphonicVoice.init n v 44100 ⟨1/100, 1/10, 7/10, 3/10⟩) 2 64 100
          (note_on (fun n v => PolyphonicVoice.init n v 44100 ⟨1/100, 1/10, 7/10, 3/10⟩) 2 60 100 [])))
      = [64, 67] := by
  constructor
  · intro V mk max_voices n v p hmax hmem hlen
    refine ⟨note_on_eq_of_full mk max_voices v hmem hlen, ?_, ?_⟩
    · apply minKey_mem
      intro h0
      have : p.length = 0 := by simpa [keys] using congrArg List.length h0
      omega
    · intro m hm
      exact minKey_le hm
  · rfl

/-- Witness for C2: a full pool `{3}` with capacity 1 receiving NoteOn 5
evicts note 3, the smallest (and only) active note. -/
theorem eviction_policy_smallest_note_witness :
    note_on (fun n _ => n) 1 5 0 [(3, 3)]
        = delKey (minKey (keys [((3:ℕ), (3:ℕ))])) [(3, 3)] ++ [(5, 5)]
      ∧ minKey (keys [((3:ℕ), (3:ℕ))]) ∈ keys [((3:ℕ), (3:ℕ))] := by
  have h := eviction_policy_smallest_note.1 ℕ (fun n _ => n) 1 5 0 [(3, 3)]
    (by decide) (by decide) (by decide)
  exact ⟨h.1, h.2.1⟩

/-- C10: a `note_on` for a note already in the pool only replaces that
note's entry: the pool update is exactly delete-then-append for that
key, every other note's voice is looked up unchanged, and the pool size
is unchanged — the eviction branch is never reached because the old
voice is deleted before the capacity check. -/
theorem retrigger_frame_property :
    ∀ (V : Type) (mk : ℕ → ℕ → V) (max_voices n v : ℕ) (p : Pool V),
      (keys p).Nodup → n ∈ keys p → p.length ≤ max_voices →
      note_on mk max_voices n v p = delKey n p ++ [(n, mk n v)]
      ∧ (∀ m, m ≠ n → lookupNote m (note_on mk max_voices n v p) = lookupNote m p)
      ∧ (note_on mk max_voices n v p).length = p.length := by
  intro V mk max_voices n v p hnd hmem hlen
  have heq := note_on_eq_of_mem mk max_voices v hmem hlen
  refine ⟨heq, ?_, ?_⟩
  · intro m hm
    rw [heq, lookupNote_append_ne hm, lookupNote_delKey_ne hm]
  · rw [heq]
    simp only [List.length_append, List.length_singleton]
    have := length_delKey_of_mem hnd hmem
    omega

/-- Witness for C10: retriggering note 3 in the full pool `{3, 5}`
(capacity 2) leaves note 5's voice untouched and the size at 2. -/
theorem retrigger_frame_property_witness :
    note_on (fun _ _ => 9) 2 3 7 [(3, 0), (5, 1)]
        = delKey 3 [(3, 0), (5, 1)] ++ [(3, 9)]
      ∧ lookupNote 5 (note_on (fun _ _ => 9) 2 3 7 [(3, 0), (5, 1)])
          = lookupNote 5 [((3:ℕ), (0:ℕ)), (5, 1)]
      ∧ (note_on (fun _ _ => (9:ℕ)) 2 3 7 [(3, 0), (5, 1)]).length = 2 := by
  have h := retrigger_frame_property ℕ (fun _ _ => 9) 2 3 7 [(3, 0), (5, 1)]
    (by decide) (by decide) (by decide)
  exact ⟨h.1, h.2.1 5 (by decide), h.2.2⟩

/-! ### Envelope lemmas -/

theorem update_envelope_finished (s : PolyphonicVoice) (f : ℕ)
    (hp : s.envelope_phase = .finished) :
    s.update_envelope f =
      (s.envelope_value,
       { s with envelope_timer := s.envelope_timer + (f : ℚ) / s.sample_rate }) := by
  obtain ⟨nt, vl, fq, ph, sr, a, d, sl, rt, ep, ev, et, rl, fs⟩ := s
  cases hp
  rfl

theorem update_envelope_release_pos (s : PolyphonicVoice) (f : ℕ)
    (hp : s.envelope_phase = .release) (hr : 0 < s.release_time) :
    s.update_envelope f =
      (s.sustain_level
         * (1 - min 1 ((s.envelope_timer + (f : ℚ) / s.sample_rate) / s.release_time)),
       { s with
         envelope_timer := s.envelope_timer + (f : ℚ) / s.sample_rate,
         envelope_value :=
           s.sustain_level
             * (1 - min 1 ((s.envelope_timer + (f : ℚ) / s.sample_rate) / s.release_time)),
         envelope_phase :=
           if min 1 ((s.envelope_timer + (f : ℚ) / s.sample_rate) / s.release_time) ≥ 1
           then EnvPhase.finished else EnvPhase.release }) := by
  obtain ⟨nt, vl, fq, ph, sr, a, d, sl, rt, ep, ev, et, rl, fs⟩ := s
  cases hp
  simp only [PolyphonicVoice.update_envelope]
  rw [if_pos hr]
  split_ifs with h <;> rfl

theorem update_envelope_release_neg (s : PolyphonicVoice) (f : ℕ)
    (hp : s.envelope_phase = .release) (hr : ¬ (0 < s.release_time)) :
    s.update_envelope f =
      (s.envelope_value,
       { s with
         envelope_timer := s.envelope_timer + (f : ℚ) / s.sample_rate,
         envelope_phase := EnvPhase.finished }) := by
  obtain ⟨nt, vl, fq, ph, sr, a, d, sl, rt, ep, ev, et, rl, fs⟩ := s
  cases hp
  simp only [PolyphonicVoice.update_envelope]
  rw [if_neg hr]

theorem min_one_ge_iff {R x : ℚ} (hR : 0 < R) : (min 1 (x / R) ≥ 1) ↔ R ≤ x := by
  rw [ge_iff_le, le_min_iff, one_le_div hR]
  simp

theorem min_one_eq_one {R x : ℚ} (hR : 0 < R) (h : R ≤ x) : min 1 (x / R) = 1 :=
  le_antisymm (min_le_left _ _) ((min_one_ge_iff hR).mpr h)

/-! ### Claim theorems: envelope -/

/-- C4 counterexample: with attack=0, decay=0, sustain=0.7, after the
FIRST `update_envelope` following NoteOn the phase is NOT Sustain with
value 0.7 (it is Decay with value 1.0). -/
theorem scenarioB_first_update_not_sustain :
    ¬ ((((PolyphonicVoice.init 60 100 44100 ⟨0, 0, 7/10, 3/10⟩).update_envelope 512).2.envelope_phase
          = EnvPhase.sustain)
       ∧ ((PolyphonicVoice.init 60 100 44100 ⟨0, 0, 7/10, 3/10⟩).update_envelope 512).1 = 7/10) := by
  decide

/-- C4 (amended): with attack = 0, decay = 0 and sustain = 0.7, the
first `update_envelope` after NoteOn yields phase Decay and value 1.0
(the elif chain handles one phase per call); the claimed state — phase
Sustain, value 0.7 — is reached after the SECOND update. -/
theorem scenarioB_two_updates (sr : ℚ) (note velocity f g : ℕ) (r : ℚ) :
    (((PolyphonicVoice.init note velocity sr ⟨0, 0, 7/10, r⟩).update_envelope f).2.envelope_phase
        = EnvPhase.decay)
    ∧ ((PolyphonicVoice.init note velocity sr ⟨0, 0, 7/10, r⟩).update_envelope f).1 = 1
    ∧ ((((PolyphonicVoice.init note velocity sr ⟨0, 0, 7/10, r⟩).update_envelope f).2.update_envelope g).2.envelope_phase
        = EnvPhase.sustain)
    ∧ (((PolyphonicVoice.init note velocity sr ⟨0, 0, 7/10, r⟩).update_envelope f).2.update_envelope g).1
        = 7/10 := by
  simp [PolyphonicVoice.init, PolyphonicVoice.update_envelope]

/-- C5 counterexample: along the reachable trace attack=0, decay=0,
sustain=0.7, release=0 — NoteOn, two renders (reaching Sustain at 0.7),
NoteOff, one render — `update_envelope` transitions into Finished yet
returns 0.7, not 0. -/
theorem release_zero_returns_stale_value :
    (((((PolyphonicVoice.init 60 100 44100 ⟨0, 0, 7/10, 0⟩).update_envelope 512).2.update_envelope 512).2.release.update_envelope 512).2.envelope_phase
        = EnvPhase.finished)
    ∧ ((((PolyphonicVoice.init 60 100 44100 ⟨0, 0, 7/10, 0⟩).update_envelope 512).2.update_envelope 512).2.release.update_envelope 512).1
        = 7/10
    ∧ (7/10 : ℚ) ≠ 0 := by
  exact ⟨rfl, rfl, by norm_num⟩

/-- C5 (amended): the Finished phase is terminal under `update_envelope`
and the call returns the stored `envelope_value` unchanged there; a
transition into Finished from Release with release_time > 0 returns 0;
but with release_time ≤ 0 the transition into Finished returns the
prior `envelope_value` unchanged (not necessarily 0). -/
theorem finished_terminal_and_value :
    (∀ (s : PolyphonicVoice) (f : ℕ), s.envelope_phase = .finished →
        (s.update_envelope f).2.envelope_phase = .finished
        ∧ (s.update_envelope f).1 = s.envelope_value)
    ∧ (∀ (s : PolyphonicVoice) (f : ℕ), s.envelope_phase = .release →
        0 < s.release_time →
        (s.update_envelope f).2.envelope_phase = .finished →
        (s.update_envelope f).1 = 0)
    ∧ (∀ (s : PolyphonicVoice) (f : ℕ), s.envelope_phase = .release →
        s.release_time ≤ 0 →
        (s.update_envelope f).2.envelope_phase = .finished
        ∧ (s.update_envelope f).1 = s.envelope_value) := by
  refine ⟨?_, ?_, ?_⟩
  · intro s f hp
    rw [update_envelope_finished s f hp]
    exact ⟨hp, rfl⟩
  · intro s f hp hr hfin
    rw [update_envelope_release_pos s f hp hr] at hfin ⊢
    by_cases hge : min 1 ((s.envelope_timer + (f : ℚ) / s.sample_rate) / s.release_time) ≥ 1
    · have h1 : min 1 ((s.envelope_timer + (f : ℚ) / s.sample_rate) / s.release_time) = 1 :=
        le_antisymm (min_le_left _ _) hge
      rw [h1]
      ring
    · rw [if_neg hge] at hfin
      exact absurd hfin (by simp)
  · intro s f hp hr
    rw [update_envelope_release_neg s f hp (not_lt.mpr hr)]
    exact ⟨rfl, rfl⟩

/-- Witness for C5 (amended), at concrete states: a Finished state keeps
phase and value; a Release state with release_time = 1 and timer past
the ramp returns 0 on finishing; a Release state with release_time = 0
finishes while returning the stale value 0.7. -/
theorem finished_terminal_and_value_witness :
    ((PolyphonicVoice.update_envelope ⟨60, 1, 0, 0, 1, 0, 0, 7/10, 1, .finished, 1/2, 0, true, 0⟩ 1).2.envelope_phase
        = EnvPhase.finished
      ∧ (PolyphonicVoice.update_envelope ⟨60, 1, 0, 0, 1, 0, 0, 7/10, 1, .finished, 1/2, 0, true, 0⟩ 1).1
        = 1/2)
    ∧ (PolyphonicVoice.update_envelope ⟨60, 1, 0, 0, 1, 0, 0, 7/10, 1, .release, 7/10, 5, true, 0⟩ 1).1 = 0
    ∧ ((PolyphonicVoice.update_envelope ⟨60, 1, 0, 0, 1, 0, 0, 7/10, 0, .release, 7/10, 0, true, 0⟩ 1).2.envelope_phase
        = EnvPhase.finished
      ∧ (PolyphonicVoice.update_envelope ⟨60, 1, 0, 0, 1, 0, 0, 7/10, 0, .release, 7/10, 0, true, 0⟩ 1).1
        = 7/10) := by
  refine ⟨finished_terminal_and_value.1 _ 1 rfl,
    finished_terminal_and_value.2.1 _ 1 rfl (by norm_num) ?_,
    finished_terminal_and_value.2.2 _ 1 rfl (by norm_num)⟩
  rw [update_envelope_release_pos _ 1 rfl (by norm_num)]
  norm_num [min_def]

/-- One `update_envelope` step preserves the release-ramp invariant:
fixed parameters, accumulated timer, value following the configured
ramp `L * (1 - min 1 (T / R))`, phase Release until `T` reaches `R`,
Finished afterwards. -/
theorem release_J_step (R L sr T : ℚ) (hR : 0 < R) (hsr : 0 < sr) (f : ℕ)
    (s : PolyphonicVoice)
    (h1 : s.release_time = R) (h2 : s.sustain_level = L) (h3 : s.sample_rate = sr)
    (h4 : s.envelope_timer = T)
    (h5 : s.envelope_value = L * (1 - min 1 (T / R)))
    (h6 : s.envelope_phase = if T < R then EnvPhase.release else EnvPhase.finished) :
    (s.update_envelope f).2.release_time = R
    ∧ (s.update_envelope f).2.sustain_level = L
    ∧ (s.update_envelope f).2.sample_rate = sr
    ∧ (s.update_envelope f).2.envelope_timer = T + (f : ℚ) / sr
    ∧ (s.update_envelope f).2.envelope_value = L * (1 - min 1 ((T + (f : ℚ) / sr) / R))
    ∧ (s.update_envelope f).2.envelope_phase
        = if T + (f : ℚ) / sr < R then EnvPhase.release else EnvPhase.finished := by
  have hdt : 0 ≤ (f : ℚ) / sr := div_nonneg (by positivity) (le_of_lt hsr)
  by_cases hTR : T < R
  · have hp : s.envelope_phase = .release := by rw [h6, if_pos hTR]
    rw [update_envelope_release_pos s f hp (h1 ▸ hR)]
    refine ⟨by simp [h1], by simp [h2], by simp [h3], by simp [h3, h4],
      by simp [h1, h2, h3, h4], ?_⟩
    show (if min 1 ((s.envelope_timer + (f : ℚ) / s.sample_rate) / s.release_time) ≥ 1
          then EnvPhase.finished else EnvPhase.release)
        = if T + (f : ℚ) / sr < R then EnvPhase.release else EnvPhase.finished
    rw [h1, h3, h4]
    by_cases hlt : T + (f : ℚ) / sr < R
    · rw [if_pos hlt, if_neg (fun hge => absurd ((min_one_ge_iff hR).mp hge) (not_le.mpr hlt))]
    · rw [if_neg hlt, if_pos ((min_one_ge_iff hR).mpr (not_lt.mp hlt))]
  · have hp : s.envelope_phase = .finished := by rw [h6, if_neg hTR]
    rw [update_envelope_finished s f hp]
    have hRT : R ≤ T := not_lt.mp hTR
    have hmin1 : min 1 (T / R) = 1 := min_one_eq_one hR hRT
    have hmin2 : min 1 ((T + (f : ℚ) / sr) / R) = 1 :=
      min_one_eq_one hR (le_trans hRT (by linarith))
    refine ⟨by simp [h1], by simp [h2], by simp [h3], by simp [h3, h4], ?_, ?_⟩
    · simp only []
      rw [show ({ s with envelope_timer := s.envelope_timer + (f : ℚ) / s.sample_rate } : PolyphonicVoice).envelope_value = s.envelope_value from rfl]
      rw [h5, hmin1, hmin2]
    · rw [show ({ s with envelope_timer := s.envelope_timer + (f : ℚ) / s.sample_rate } : PolyphonicVoice).envelope_phase = s.envelope_phase from rfl]
      rw [hp, if_neg (by linarith : ¬ (T + (f : ℚ) / sr < R))]

/-- Iterating `update_envelope` from any state satisfying the
release-ramp invariant keeps the envelope value on the configured ramp
`L * (1 - min 1 (t / R))` of the total elapsed phase-local time. -/
theorem runUpdates_J (R L sr : ℚ) (hR : 0 < R) (hsr : 0 < sr) :
    ∀ (fs : List ℕ) (s : PolyphonicVoice) (T : ℚ),
      s.release_time = R → s.sustain_level = L → s.sample_rate = sr →
      s.envelope_timer = T →
      s.envelope_value = L * (1 - min 1 (T / R)) →
      s.envelope_phase = (if T < R then EnvPhase.release else EnvPhase.finished) →
      (runUpdates fs s).envelope_value = L * (1 - min 1 ((T + elapsed fs sr) / R))
  | [], s, T, _, _, _, _, h5, _ => by
      simp [runUpdates, elapsed, h5]
  | f :: fs, s, T, h1, h2, h3, h4, h5, h6 => by
      have hstep := release_J_step R L sr T hR hsr f s h1 h2 h3 h4 h5 h6
      have hrec := runUpdates_J R L sr hR hsr fs (s.update_envelope f).2 (T + (f : ℚ) / sr)
        hstep.1 hstep.2.1 hstep.2.2.1 hstep.2.2.2.1 hstep.2.2.2.2.1 hstep.2.2.2.2.2
      rw [show runUpdates (f :: fs) s = runUpdates fs (s.update_envelope f).2 from rfl,
        hrec,
        show elapsed (f :: fs) sr = (f : ℚ) / sr + elapsed fs sr from rfl,
        add_assoc]

/-- C6: with release_time > 0, after `release()` (callable from any
non-Finished phase; it forces phase Release and zeroes the phase-local
timer) followed by any nonempty sequence of envelope updates with total
elapsed time t, the envelope value equals
`sustain_level * (1 - min 1 (t / release_time))` — a ramp computed from
the configured sustain constant, independent of the envelope value at
the moment of the release trigger. -/
theorem release_ramp_formula (s : PolyphonicVoice) (fs : List ℕ)
    (hR : 0 < s.release_time) (hsr : 0 < s.sample_rate)
    (hp : s.envelope_phase ≠ .finished) (hne : fs ≠ []) :
    (runUpdates fs s.release).envelope_value
        = s.sustain_level * (1 - min 1 (elapsed fs s.sample_rate / s.release_time))
    ∧ s.release.envelope_phase = .release
    ∧ s.release.envelope_timer = 0 := by
  refine ⟨?_, rfl, rfl⟩
  obtain ⟨f, fs', rfl⟩ := List.exists_cons_of_ne_nil hne
  have hstep := update_envelope_release_pos s.release f rfl hR
  set s1 := (s.release.update_envelope f).2 with hs1
  have e1 : s1.release_time = s.release_time := by rw [hs1, hstep]; rfl
  have e2 : s1.sustain_level = s.sustain_level := by rw [hs1, hstep]; rfl
  have e3 : s1.sample_rate = s.sample_rate := by rw [hs1, hstep]; rfl
  have e4 : s1.envelope_timer = 0 + (f : ℚ) / s.sample_rate := by rw [hs1, hstep]; rfl
  have e5 : s1.envelope_value
      = s.sustain_level * (1 - min 1 ((0 + (f : ℚ) / s.sample_rate) / s.release_time)) := by
    rw [hs1, hstep]
    rfl
  have e6 : s1.envelope_phase
      = if 0 + (f : ℚ) / s.sample_rate < s.release_time
        then EnvPhase.release else EnvPhase.finished := by
    rw [hs1, hstep]
    show (if min 1 ((0 + (f : ℚ) / s.sample_rate) / s.release_time) ≥ 1
          then EnvPhase.finished else EnvPhase.release)
        = if 0 + (f : ℚ) / s.sample_rate < s.release_time
          then EnvPhase.release else EnvPhase.finished
    by_cases hlt : 0 + (f : ℚ) / s.sample_rate < s.release_time
    · rw [if_pos hlt, if_neg (fun hge => absurd ((min_one_ge_iff hR).mp hge) (not_le.mpr hlt))]
    · rw [if_neg hlt, if_pos ((min_one_ge_iff hR).mpr (not_lt.mp hlt))]
  have hmain := runUpdates_J s.release_time s.sustain_level s.sample_rate hR hsr fs' s1
    (0 + (f : ℚ) / s.sample_rate) e1 e2 e3 e4 e5 e6
  rw [show runUpdates (f :: fs') s.release = runUpdates fs' s1 from by rw [hs1]; rfl,
    hmain,
    show elapsed (f :: fs') s.sample_rate
      = (f : ℚ) / s.sample_rate + elapsed fs' s.sample_rate from rfl,
    zero_add]

/-- Witness for C6: a sustained voice with sustain 0.7, release 1/2 and
sample rate 1, released then updated for one 1-frame block. -/
theorem release_ramp_formula_witness :
    (runUpdates [1] (PolyphonicVoice.release
        ⟨60, 1, 0, 0, 1, 0, 0, 7/10, 1/2, .sustain, 7/10, 0, false, 0⟩)).envelope_value
      = (7/10 : ℚ) * (1 - min 1 (elapsed [1] 1 / (1/2))) := by
  have h := release_ramp_formula
    ⟨60, 1, 0, 0, 1, 0, 0, 7/10, 1/2, .sustain, 7/10, 0, false, 0⟩ [1]
    (by norm_num) (by norm_num) (by decide) (by simp)
  exact h.1

/-! ### Claim theorems: render fault handling, oscillator -/

/-- C3: any fault raised while mixing voice blocks inside
`audio_callback` is absorbed by the callback: the output for both
channels is an all-zero block, and since `audio_callback` is a total
function no exception can propagate to the audio sink. -/
theorem audio_callback_fault_zero_fill {V E : Type}
    (gen : ℕ → V → Except E (List ℝ)) (fin : V → Bool) (master_volume : ℝ)
    (frames : ℕ) (p : Pool V) (err : E)
    (h : mixVoices gen fin p (List.replicate frames 0) = .error err) :
    audio_callback gen fin master_volume frames p
      = (List.replicate frames 0, List.replicate frames 0) := by
  unfold audio_callback
  rw [h]

/-- Witness for C3: a one-voice pool whose render faults produces
zero-filled stereo output. -/
theorem audio_callback_fault_zero_fill_witness :
    @audio_callback PolyphonicVoice Unit (fun _ _ => .error ())
        PolyphonicVoice.is_finished (1/2) 4
        [(60, ⟨60, 1, 0, 0, 1, 0, 0, 7/10, 3/10, .attack, 0, 0, false, 0⟩)]
      = (List.replicate 4 0, List.replicate 4 0) :=
  audio_callback_fault_zero_fill _ _ _ _ _ () rfl

/-- C7 counterexample: `generate` contains no non-positive-frequency
clamp. On a voice state with `frequency = 0` (hence detuned frequency
`0 ≤ 0`) and phase π/2, the sine oscillator emits the constant 1 — the
returned block is not all-zero silence. -/
theorem generate_no_nonpositive_freq_clamp :
    (PolyphonicVoice.detuned_freq
        ⟨60, 1, 0, Real.pi / 2, 1, 0, 0, 1, 3/10, .sustain, 1, 0, false, 0⟩ 0 ≤ 0)
    ∧ (PolyphonicVoice.generate
        ⟨60, 1, 0, Real.pi / 2, 1, 0, 0, 1, 3/10, .sustain, 1, 0, false, 0⟩ 1 0 8000 0).1
      ≠ List.replicate 1 0 := by
  constructor
  · simp [PolyphonicVoice.detuned_freq]
  · simp [PolyphonicVoice.generate, PolyphonicVoice.detuned_freq,
      PolyphonicVoice.update_envelope, rawOsc, oscSample, Real.sin_pi_div_two,
      List.range_succ, List.range_zero]

/-- C7 (amended): the non-positive-frequency case cannot arise for any
constructor-created voice — the equal-temperament base frequency times
the detune factor is strictly positive for every note, velocity, sample
rate, envelope parameters and detune. -/
theorem detuned_freq_always_pos (note velocity : ℕ) (sr : ℚ)
    (params : EnvelopeParams) (detune : ℚ) :
    0 < (PolyphonicVoice.init note velocity sr params).detuned_freq detune := by
  show (0:ℝ) < 440 * (2:ℝ) ^ (((note : ℝ) - 69) / 12) * (2:ℝ) ^ ((detune : ℝ) / 1200)
  positivity

theorem oscSample_bounds (waveform : ℕ) (θ : ℝ) :
    -1 ≤ oscSample waveform θ ∧ oscSample waveform θ ≤ 1 := by
  have hf0 := Int.fract_nonneg (θ / (2 * Real.pi))
  have hf1 := Int.fract_lt_one (θ / (2 * Real.pi))
  have hs0 := Real.neg_one_le_sin θ
  have hs1 := Real.sin_le_one θ
  unfold oscSample npSign
  split_ifs <;> constructor <;> try linarith
  · have habs : |2 * Int.fract (θ / (2 * Real.pi)) - 1| ≤ 1 :=
      abs_le.mpr ⟨by linarith, by linarith⟩
    have := abs_nonneg (2 * Int.fract (θ / (2 * Real.pi)) - 1)
    linarith
  · have habs : |2 * Int.fract (θ / (2 * Real.pi)) - 1| ≤ 1 :=
      abs_le.mpr ⟨by linarith, by linarith⟩
    linarith

/-- C8: every raw oscillator sample produced inside `generate` — taken
at the voice's running phase with the detuned phase increment, for any
waveform selector, block length, phase, frequency and sample rate —
lies in [-1, 1] before filtering, envelope and velocity scaling. -/
theorem raw_oscillator_in_range (s : PolyphonicVoice) (frames waveform : ℕ)
    (detune : ℚ) (x : ℝ)
    (hx : x ∈ rawOsc s.phase
        (2 * Real.pi * s.detuned_freq detune / (s.sample_rate : ℝ)) waveform frames) :
    -1 ≤ x ∧ x ≤ 1 := by
  obtain ⟨i, _, rfl⟩ := List.mem_map.mp hx
  exact oscSample_bounds waveform _

/-- Witness for C8: the one raw sample of a one-frame sine block at
phase 0 and frequency 0 is `sin 0`, within [-1, 1]. -/
theorem raw_oscillator_in_range_witness :
    -1 ≤ Real.sin 0 ∧ Real.sin 0 ≤ 1 :=
  raw_oscillator_in_range ⟨60, 1, 0, 0, 1, 0, 0, 1, 3/10, .attack, 0, 0, false, 0⟩ 1 0 0
    (Real.sin 0) (by simp [rawOsc, oscSample, PolyphonicVoice.detuned_freq, List.range_succ, List.range_zero])

/-! ### Equivalence of the two voice classes -/

theorem init_commute (note velocity : ℕ) (sr : ℚ) (params : EnvelopeParams) :
    MPKVoice.init note velocity sr params
      = toMPK (PolyphonicVoice.init note velocity sr params) := rfl

theorem release_commute (s : PolyphonicVoice) :
    MPKVoice.release (toMPK s) = toMPK s.release := by
  obtain ⟨nt, vl, fq, ph, sr, a, d, sl, rt, ep, ev, et, rl, fs⟩ := s
  rfl

theorem update_commute (s : PolyphonicVoice) (f : ℕ) :
    MPKVoice.update_envelope (toMPK s) f
      = ((PolyphonicVoice.update_envelope s f).1,
         toMPK (PolyphonicVoice.update_envelope s f).2) := by
  obtain ⟨nt, vl, fq, ph, sr, a, d, sl, rt, ep, ev, et, rl, fs⟩ := s
  cases ep <;>
    simp only [PolyphonicVoice.update_envelope, MPKVoice.update_envelope, toMPK] <;>
    split_ifs <;> rfl

set_option maxHeartbeats 2000000 in
theorem generate_commute (s : PolyphonicVoice) (frames waveform : ℕ)
    (filter_cutoff detune : ℚ) :
    MPKVoice.generate (toMPK s) frames waveform filter_cutoff detune
      = ((PolyphonicVoice.generate s frames waveform filter_cutoff detune).1,
         toMPK (PolyphonicVoice.generate s frames waveform filter_cutoff detune).2) := by
  obtain ⟨nt, vl, fq, ph, sr, a, d, sl, rt, ep, ev, et, rl, fs⟩ := s
  cases ep <;>
    simp only [PolyphonicVoice.generate, MPKVoice.generate,
      PolyphonicVoice.detuned_freq, MPKVoice.detuned_freq,
      PolyphonicVoice.update_envelope, MPKVoice.update_envelope, toMPK] <;>
    split_ifs <;> rfl

theorem foldVoice_commute :
    ∀ (ops : List VOp) (s : PolyphonicVoice) (acc : List (List ℝ)),
      List.foldl
        (fun acc op =>
          match op with
          | .rel => (acc.1.release, acc.2)
          | .gen f w c d =>
            let r := acc.1.generate f w c d
            (r.2, acc.2 ++ [r.1]))
        (toMPK s, acc) ops
        = (toMPK (List.foldl
            (fun acc op =>
              match op with
              | .rel => (acc.1.release, acc.2)
              | .gen f w c d =>
                let r := acc.1.generate f w c d
                (r.2, acc.2 ++ [r.1]))
            (s, acc) ops).1,
           (List.foldl
            (fun acc op =>
              match op with
              | .rel => (acc.1.release, acc.2)
              | .gen f w c d =>
                let r := acc.1.generate f w c d
                (r.2, acc.2 ++ [r.1]))
            (s, acc) ops).2)
  | [], s, acc => rfl
  | .rel :: ops, s, acc => by
    have ih := foldVoice_commute ops s.release acc
    simp only [List.foldl_cons]
    rw [show (MPKVoice.release (toMPK s), acc) = (toMPK s.release, acc) from by
      rw [release_commute]]
    exact ih
  | .gen f w c d :: ops, s, acc => by
    have ih := foldVoice_commute ops (s.generate f w c d).2 (acc ++ [(s.generate f w c d).1])
    simp only [List.foldl_cons]
    rw [show ((MPKVoice.generate (toMPK s) f w c d).2,
          acc ++ [(MPKVoice.generate (toMPK s) f w c d).1])
        = (toMPK (s.generate f w c d).2, acc ++ [(s.generate f w c d).1]) from by
      rw [generate_commute]]
    exact ih

/-- C9: `PolyphonicVoice` and `MPKVoice` are behaviorally equivalent:
started from identical constructor arguments and driven by any
identical sequence of `release()` / `generate(...)` calls, they return
identical sample blocks and end in field-wise identical internal states
(phase, filter memory, envelope phase/value/timer). -/
theorem voice_classes_equivalent (note velocity : ℕ) (sr : ℚ)
    (params : EnvelopeParams) (ops : List VOp) :
    (runMPKVoice ops (MPKVoice.init note velocity sr params)).2
        = (runPolyVoice ops (PolyphonicVoice.init note velocity sr params)).2
    ∧ (runMPKVoice ops (MPKVoice.init note velocity sr params)).1
        = toMPK (runPolyVoice ops (PolyphonicVoice.init note velocity sr params)).1 := by
  have h2 : runMPKVoice ops (MPKVoice.init note velocity sr params)
      = (toMPK (runPolyVoice ops (PolyphonicVoice.init note velocity sr params)).1,
         (runPolyVoice ops (PolyphonicVoice.init note velocity sr params)).2) := by
    unfold runMPKVoice runPolyVoice
    rw [init_commute]
    exact foldVoice_commute ops _ []
  exact ⟨by rw [h2], by rw [h2]⟩
